import Mathlib

/-!
Shallow embedding of `src/amplitude_shift_keying.py` (class `ASK`) from the
phase-shift-keying repository, together with proofs settling the claims about
it.  Python/NumPy floating point is modelled by `ℝ`; NumPy 1-D arrays by
`List ℝ`; operations that can raise a Python exception return `Except String`.
-/

namespace PSK

open Real List

/-- NumPy element-wise product of two 1-D arrays (`u * v`).  Equal lengths give
the element-wise product; a length-1 operand broadcasts against the other;
any other length combination raises a broadcast `ValueError`. -/
def npMul (u v : List ℝ) : Except String (List ℝ) :=
  if u.length = v.length then .ok (List.zipWith (· * ·) u v)
  else if u.length = 1 then .ok (v.map (fun x => u.headD 0 * x))
  else if v.length = 1 then .ok (u.map (fun x => x * v.headD 0))
  else .error "ValueError: operands could not be broadcast together"

/-- `np.repeat(l, c)` for a 1-D array: each element repeated `c` times in place. -/
def npRepeat (c : ℕ) (l : List α) : List α := l.flatMap (List.replicate c)

/-- `np.round(x, 1)`: rounding to one decimal place, halves to even
(NumPy rounds half to even). -/
noncomputable def npRound1 (x : ℝ) : ℝ :=
  (if Int.fract (10 * x) = 1 / 2 then
      (if Even ⌊10 * x⌋ then (⌊10 * x⌋ : ℝ) else (⌊10 * x⌋ : ℝ) + 1)
    else (round (10 * x) : ℤ)) / 10

/-- The attributes stored on a constructed `ASK` object
(`self.sampling_frec`, `self.carry_frec`, `self.bits_num`, `self.noise`).
The derived attributes `time` and `samp_per_bit` are recomputed below exactly
as `__init__` computes them. -/
structure ASKState where
  sampling_frec : ℕ
  carry_frec : ℕ
  bits_num : ℕ
  noise : ℝ

/-- `self.samp_per_bit = int(sampling_frec / bits_num)`: for non-negative
integers, truncating float division is floor division. -/
def ASKState.samp_per_bit (a : ASKState) : ℕ := a.sampling_frec / a.bits_num

/-- `self.time = np.linspace(0, 1, sampling_frec)`, sample `i`, namely
`i / (sampling_frec - 1)` (and `linspace(0,1,1) = [0]`, which the formula also
yields since division by zero is `0`). -/
noncomputable def ASKState.time (a : ASKState) (i : ℕ) : ℝ :=
  (i : ℝ) / ((a.sampling_frec - 1 : ℕ) : ℝ)

/-- `ASK.__init__`: the line `int(sampling_frec / bits_num)` raises
`ZeroDivisionError` when `bits_num == 0`, so no object is constructed then;
otherwise all four attributes are stored. -/
def ASK.init (sampling_frec carry_frec bits_num : ℕ) (noise : ℝ) :
    Except String ASKState :=
  if bits_num = 0 then .error "ZeroDivisionError: division by zero"
  else .ok ⟨sampling_frec, carry_frec, bits_num, noise⟩

/-- `ASK.generateCarryWave`: `np.sin(2 * np.pi * carry_frec * time)`. -/
noncomputable def ASKState.generateCarryWave (a : ASKState) : List ℝ :=
  (List.range a.sampling_frec).map fun i =>
    Real.sin (2 * π * (a.carry_frec : ℝ) * a.time i)

/-- `ASK.modulation`: `cont_msg = np.repeat(message, samp_per_bit)` followed by
`transmited_signal = carry_wave * cont_msg` (NumPy broadcasting semantics). -/
def ASKState.modulation (a : ASKState) (message carry_wave : List ℝ) :
    Except String (List ℝ) :=
  npMul carry_wave (npRepeat a.samp_per_bit message)

/-- `ASK.addNoise`: `signal + noise` where the caller supplies the drawn noise
array (in the source it is `np.random.normal(0, self.noise, len(signal))`). -/
def addNoise (signal noise : List ℝ) : List ℝ := List.zipWith (· + ·) signal noise

/-- The per-sample threshold applied inside `ASK.demodulation`:
`1` when `abs(signal[i]) > 0.4`, else `0`. -/
noncomputable def chipOf (x : ℝ) : ℕ := if 0.4 < |x| then 1 else 0

/-- `ASK.demodulation`: reading `signal[i]` for `i in range(sampling_frec)`
raises `IndexError` if the signal is shorter than `sampling_frec`; then
`np.split(recieved_signal, bits_num)` first computes `len % sections`, which
raises `ZeroDivisionError` when `bits_num == 0`, and raises the
equal-division `ValueError` when the positive `bits_num` does not divide
`sampling_frec` (the length of `recieved_signal`); otherwise each of the
`bits_num` segments of `sampling_frec / bits_num = samp_per_bit` chips is
summed and compared against `samp_per_bit / 2` (Python float division). -/
noncomputable def ASKState.demodulation (a : ASKState) (signal : List ℝ) :
    Except String (List ℕ) :=
  if a.sampling_frec ≤ signal.length then
    if a.bits_num = 0 then
      .error "ZeroDivisionError: integer division or modulo by zero"
    else if a.sampling_frec % a.bits_num = 0 then
      let chips := (List.range a.sampling_frec).map fun i => chipOf (signal.getD i 0)
      .ok ((List.range a.bits_num).map fun k =>
        if ((a.samp_per_bit : ℝ) / 2) <
            ((((chips.drop (k * a.samp_per_bit)).take a.samp_per_bit).sum : ℕ) : ℝ)
        then 1 else 0)
    else .error "ValueError: array split does not result in an equal division"
  else .error "IndexError: index out of bounds"

/-- `ASK.calculateBER`: `errors = np.sum(original != received)` (element-wise
comparison of two equal-length arrays) divided by `self.bits_num`. -/
noncomputable def ASKState.calculateBER (a : ASKState)
    (original_message received_message : List ℕ) : ℝ :=
  (((List.zipWith (fun x y => if x ≠ y then (1 : ℕ) else 0)
      original_message received_message).sum : ℕ) : ℝ) / (a.bits_num : ℝ)

/-- One field of a CSV row written by `csv.writer.writerow`. -/
inductive Field where
  | str : String → Field
  | int : ℕ → Field
  | real : ℝ → Field

/-- The row `['ASK', sampling_frec, carry_frec, bits_num, np.round(noise, 1),
float_data, EbNodB]` written by `ASK.save_to_csv`. -/
noncomputable def ASKState.csvRow (a : ASKState) (float_data : ℝ) (EbNodB : ℕ) :
    List Field :=
  [.str "ASK", .int a.sampling_frec, .int a.carry_frec, .int a.bits_num,
    .real (npRound1 a.noise), .real float_data, .int EbNodB]

/-- `ASK.save_to_csv`: the file `data/output/bers.csv` is opened in append
mode and `writerow` appends exactly one `;`-delimited row (the row-list model:
one list entry per row, fields in writerow order, no header is ever written). -/
noncomputable def ASKState.save_to_csv (a : ASKState) (file : List (List Field))
    (float_data : ℝ) (EbNodB : ℕ) : List (List Field) :=
  file ++ [a.csvRow float_data EbNodB]

/-- `ASK.one_run`: the full pipeline.  The random draws are passed in
explicitly: `message` stands for `generateSignal()` and `noiseF` for the
Gaussian noise source sampled at each index (the source draws exactly
`len(signal)` samples). -/
noncomputable def ASKState.one_run (a : ASKState) (message : List ℕ)
    (noiseF : ℕ → ℝ) (file : List (List Field)) (EbNodB : ℕ) :
    Except String (List (List Field)) :=
  match a.modulation (message.map (Nat.cast)) a.generateCarryWave with
  | .error e => .error e
  | .ok signal =>
    match a.demodulation (addNoise signal ((List.range signal.length).map noiseF)) with
    | .error e => .error e
    | .ok received_signal =>
      .ok (a.save_to_csv file (a.calculateBER message received_signal) EbNodB)

/-- The noise level `1 / np.sqrt(2 * 10.0 ** (n / 10.0)) * 2` that
`ASK.simulate` assigns to `self.noise` before iteration `n`. -/
noncomputable def noiseFor (n : ℕ) : ℝ :=
  1 / Real.sqrt (2 * (10 : ℝ) ^ ((n : ℝ) / 10)) * 2

/-- `ASK.simulate`: `for n in range(12)`, set `self.noise` and call
`one_run(n)`.  Modelled as the (state, label) trace of the `one_run` calls in
order. -/
noncomputable def ASKState.simulate (a : ASKState) : List (ASKState × ℕ) :=
  (List.range 12).map fun n => ({ a with noise := noiseFor n }, n)


/-! ### List infrastructure lemmas -/

theorem length_npRepeat (c : ℕ) (l : List α) : (npRepeat c l).length = c * l.length := by
  induction l with
  | nil => simp [npRepeat]
  | cons a l ih =>
      simp only [npRepeat, List.flatMap_cons, List.length_append, List.length_replicate,
        List.length_cons] at *
      rw [ih]; ring

theorem getD_npRepeat (c : ℕ) (l : List α) (i : ℕ) (d : α) (h : i < c * l.length) :
    (npRepeat c l).getD i d = l.getD (i / c) d := by
  induction l generalizing i with
  | nil => simp at h
  | cons a l ih =>
      have hc0 : 0 < c := by
        rcases Nat.eq_zero_or_pos c with h0 | h0
        · simp [h0] at h
        · exact h0
      by_cases hic : i < c
      · rw [npRepeat, List.flatMap_cons,
          List.getD_append _ _ _ _ (by simpa using hic), Nat.div_eq_of_lt hic]
        rw [List.getD_eq_getElem _ _ (by simpa using hic)]
        simp
      · push_neg at hic
        rw [npRepeat, List.flatMap_cons,
          List.getD_append_right _ _ _ _ (by simpa using hic), List.length_replicate]
        have h2 : i - c < c * l.length := by
          simp only [List.length_cons, Nat.mul_succ] at h; omega
        rw [show (l.flatMap (List.replicate c)).getD (i - c) d = l.getD ((i - c) / c) d
          from ih _ h2, Nat.div_eq_sub_div hc0 hic]
        rfl

theorem addNoise_replicate_zero (s : List ℝ) :
    addNoise s (List.replicate s.length 0) = s := by
  induction s with
  | nil => rfl
  | cons a l ih =>
      simpa [addNoise, List.replicate_succ] using ih

theorem sum_map_ite_eq_countP (p : ℕ → Bool) (l : List ℕ) :
    (l.map fun i => if p i then (1 : ℕ) else 0).sum = l.countP p := by
  induction l with
  | nil => rfl
  | cons a l ih =>
      simp only [List.map_cons, List.sum_cons, List.countP_cons, ih]
      by_cases h : p a <;> simp [h] <;> omega

theorem map_range_segment (f : ℕ → α) (b c k : ℕ) (hk : k < b) :
    (((List.range (b * c)).map f).drop (k * c)).take c
      = (List.range' (k * c) c).map f := by
  have e0 : (b - k) * c + k * c = b * c := by
    rw [← Nat.add_mul]; congr 1; omega
  have e1 : List.range (b * c) = List.range' 0 (k * c) ++ List.range' (k * c) ((b - k) * c) := by
    rw [List.range_eq_range']
    have h := List.range'_append_1 0 (k * c) ((b - k) * c)
    rw [Nat.zero_add, e0] at h
    exact h.symm
  have e2 : (b - k) * c = (b - k - 1) * c + c := by
    have h1 : b - k = (b - k - 1) + 1 := by omega
    calc (b - k) * c = ((b - k - 1) + 1) * c := by rw [← h1]
      _ = (b - k - 1) * c + c := by rw [Nat.add_mul, Nat.one_mul]
  have e3 : List.range' (k * c) ((b - k) * c)
      = List.range' (k * c) c ++ List.range' (k * c + c) ((b - k - 1) * c) := by
    have h := List.range'_append_1 (k * c) c ((b - k - 1) * c)
    rw [← e2] at h
    exact h.symm
  rw [e1, List.map_append, List.drop_left' (by simp), e3, List.map_append,
    List.take_left' (by simp)]


/-! ### Facts about the carrier sine wave needed for the round-trip claim -/

/-- Numeric core: `sin(132·π/999) > 0.4`, via the cubic Taylor bound. -/
theorem sin_132_gt : (0.4 : ℝ) < Real.sin (132 * π / 999) := by
  have hpl : (3.141592 : ℝ) < π := Real.pi_gt_d6
  have hpu : π < (3.141593 : ℝ) := Real.pi_lt_d6
  set x : ℝ := 132 * π / 999 with hxdef
  have hx0 : 0 ≤ x := by
    rw [hxdef]; positivity
  have hxl : (132 * 3.141592 / 999 : ℝ) ≤ x := by
    rw [hxdef]; gcongr
  have hxu : x ≤ (132 * 3.141593 / 999 : ℝ) := by
    rw [hxdef]; gcongr
  have hx1 : |x| ≤ 1 := by
    rw [abs_of_nonneg hx0]; nlinarith
  have hb := Real.sin_bound hx1
  rw [abs_of_nonneg hx0] at hb
  have h3 : x ^ 3 ≤ (132 * 3.141593 / 999 : ℝ) ^ 3 := by gcongr
  have h4 : x ^ 4 ≤ (132 * 3.141593 / 999 : ℝ) ^ 4 := by gcongr
  have hs : x - x ^ 3 / 6 - x ^ 4 * (5 / 96) ≤ Real.sin x := by
    have hb1 := (abs_le.mp hb).1
    linarith
  have hnum : (0.4 : ℝ) < 132 * 3.141592 / 999 - (132 * 3.141593 / 999 : ℝ) ^ 3 / 6
      - (132 * 3.141593 / 999 : ℝ) ^ 4 * (5 / 96) := by norm_num
  linarith

/-- On the plateau `132 ≤ r ≤ 867` the sine of `r·π/999` is at least the
boundary value `sin(132·π/999)`. -/
theorem sin_132_le (r : ℕ) (h1 : 132 ≤ r) (h2 : r ≤ 867) :
    Real.sin (132 * π / 999) ≤ Real.sin ((r : ℝ) * π / 999) := by
  rcases le_or_lt r 499 with hc | hc
  · apply Real.sin_le_sin_of_le_of_le_pi_div_two
    · have h0 : (0 : ℝ) ≤ 132 * π / 999 := by positivity
      linarith [Real.pi_pos]
    · have hr : (r : ℝ) ≤ 499 := by exact_mod_cast hc
      have hm : (r : ℝ) * π ≤ 499 * π :=
        mul_le_mul_of_nonneg_right hr Real.pi_pos.le
      linarith [Real.pi_pos]
    · have hr : (132 : ℝ) ≤ r := by exact_mod_cast h1
      gcongr
  · rw [show Real.sin ((r : ℝ) * π / 999) = Real.sin (π - (r : ℝ) * π / 999)
      from (Real.sin_pi_sub _).symm]
    apply Real.sin_le_sin_of_le_of_le_pi_div_two
    · linarith [Real.pi_pos]
    · have hr : (500 : ℝ) ≤ r := by exact_mod_cast hc
      have hm : (500 : ℝ) * π ≤ (r : ℝ) * π :=
        mul_le_mul_of_nonneg_right hr Real.pi_pos.le
      linarith [Real.pi_pos]
    · have hr : (r : ℝ) ≤ 867 := by exact_mod_cast h2
      have hm : (r : ℝ) * π ≤ 867 * π :=
        mul_le_mul_of_nonneg_right hr Real.pi_pos.le
      linarith [Real.pi_pos]

/-- `|sin(m·π/999)|` only depends on `m mod 999`, and equals the sine there. -/
theorem abs_sin_pi_mul_div (m : ℕ) :
    |Real.sin ((m : ℝ) * π / 999)| = Real.sin (((m % 999 : ℕ) : ℝ) * π / 999) := by
  obtain ⟨q, r, hqr, hrm⟩ : ∃ q r, m = 999 * q + r ∧ m % 999 = r :=
    ⟨m / 999, m % 999, (Nat.div_add_mod m 999).symm, rfl⟩
  rw [hrm]
  have hrlt : r < 999 := hrm ▸ Nat.mod_lt m (by norm_num)
  have hsplit : (m : ℝ) * π / 999 = (r : ℝ) * π / 999 + (q : ℤ) * π := by
    rw [hqr]; push_cast; field_simp; ring
  rw [hsplit, Real.sin_add_int_mul_pi, abs_mul]
  have h1 : |((-1 : ℝ)) ^ ((q : ℤ))| = 1 := by
    rw [zpow_natCast, abs_pow, abs_neg, abs_one, one_pow]
  rw [h1, one_mul]
  apply abs_of_nonneg
  apply Real.sin_nonneg_of_nonneg_of_le_pi
  · positivity
  · have hr : (r : ℝ) ≤ 999 := by exact_mod_cast hrlt.le
    have hmm : (r : ℝ) * π ≤ 999 * π :=
      mul_le_mul_of_nonneg_right hr Real.pi_pos.le
    linarith [Real.pi_pos]

/-- The sample indices whose carrier amplitude certainly exceeds the 0.4
threshold, stated purely arithmetically. -/
def goodIdx (i : ℕ) : Bool := decide (132 ≤ 20 * i % 999 ∧ 20 * i % 999 ≤ 867)

/-- At a good index the carrier wave of the `(1000, 10)` configuration is
strictly above the demodulation threshold in absolute value. -/
theorem chip_threshold_of_good (i : ℕ) (h : goodIdx i = true) :
    (0.4 : ℝ) < |Real.sin (2 * π * 10 * ((i : ℝ) / 999))| := by
  have h' := of_decide_eq_true h
  have e : 2 * π * 10 * ((i : ℝ) / 999) = ((20 * i : ℕ) : ℝ) * π / 999 := by
    push_cast; ring
  rw [e, abs_sin_pi_mul_div]
  exact lt_of_lt_of_le sin_132_gt (sin_132_le (20 * i % 999) h'.1 h'.2)


/-! ### The concrete configuration of claim C1 -/

/-- The simulator of the spec's concrete configuration: sampling frequency
1000, carrier frequency 10, bit count 10, noise 0. -/
def askC1 : ASKState := ⟨1000, 10, 10, 0⟩

theorem askC1_samp_per_bit : askC1.samp_per_bit = 100 := rfl

/-- The modulated (noise-free) signal of the C1 configuration. -/
noncomputable def sigC1 (message : List ℕ) : List ℝ :=
  List.zipWith (· * ·) askC1.generateCarryWave
    (npRepeat askC1.samp_per_bit (message.map Nat.cast))

theorem getD_zipWith_mul (u v : List ℝ) (i : ℕ) (hu : i < u.length) (hv : i < v.length) :
    (List.zipWith (· * ·) u v).getD i 0 = u.getD i 0 * v.getD i 0 := by
  rw [List.getD_eq_getElem _ _ (by rw [List.length_zipWith]; omega),
    List.getElem_zipWith, List.getD_eq_getElem _ _ hu, List.getD_eq_getElem _ _ hv]

theorem getD_map_natCast (l : List ℕ) (n : ℕ) :
    (l.map (Nat.cast : ℕ → ℝ)).getD n 0 = ((l.getD n 0 : ℕ) : ℝ) := by
  induction l generalizing n with
  | nil => simp
  | cons a l ih =>
      cases n with
      | zero => simp
      | succ n => simpa [List.getD_cons_succ] using ih n

theorem askC1_carry_length : askC1.generateCarryWave.length = 1000 := by
  simp [ASKState.generateCarryWave, askC1]

theorem askC1_carry_getD (i : ℕ) (hi : i < 1000) :
    askC1.generateCarryWave.getD i 0 = Real.sin (2 * π * 10 * ((i : ℝ) / 999)) := by
  rw [ASKState.generateCarryWave,
    List.getD_eq_getElem _ _ (by simpa [ASKState.generateCarryWave, askC1] using hi)]
  simp only [List.getElem_map, List.getElem_range]
  norm_num [ASKState.time, askC1]

theorem sigC1_length (message : List ℕ) (hlen : message.length = 10) :
    (sigC1 message).length = 1000 := by
  rw [sigC1, List.length_zipWith, length_npRepeat, askC1_carry_length]
  simp [askC1_samp_per_bit, hlen]

theorem sigC1_getD (message : List ℕ) (hlen : message.length = 10)
    (i : ℕ) (hi : i < 1000) :
    (sigC1 message).getD i 0
      = Real.sin (2 * π * 10 * ((i : ℝ) / 999)) * ((message.getD (i / 100) 0 : ℕ) : ℝ) := by
  have hv : i < (npRepeat askC1.samp_per_bit
      (message.map (Nat.cast : ℕ → ℝ))).length := by
    rw [length_npRepeat, askC1_samp_per_bit]
    simpa [hlen] using hi
  rw [sigC1, getD_zipWith_mul _ _ i (by rw [askC1_carry_length]; exact hi) hv,
    askC1_carry_getD i hi]
  congr 1
  rw [askC1_samp_per_bit]
  rw [getD_npRepeat 100 _ i _ (by simp [hlen]; omega), getD_map_natCast]

/-- Reduction of `demodulation` in the successful case. -/
theorem demodulation_ok_eq (a : ASKState) (signal : List ℝ)
    (h1 : a.sampling_frec ≤ signal.length) (h2 : a.bits_num ≠ 0)
    (h3 : a.sampling_frec % a.bits_num = 0) :
    a.demodulation signal = .ok ((List.range a.bits_num).map fun k =>
      if ((a.samp_per_bit : ℝ) / 2) <
          (((((List.range a.sampling_frec).map fun i =>
              chipOf (signal.getD i 0)).drop (k * a.samp_per_bit)).take
                a.samp_per_bit).sum : ℝ)
      then 1 else 0) := by
  rw [ASKState.demodulation, if_pos h1, if_neg h2, if_pos h3]

/-- Each hundred-sample segment contains at least 51 indices at which the
carrier certainly exceeds the threshold. -/
theorem countGood : ∀ k < 10, 51 ≤ (List.range' (k * 100) 100).countP goodIdx := by decide

theorem zipWith_ne_self_sum (l : List ℕ) :
    (List.zipWith (fun x y => if x ≠ y then (1 : ℕ) else 0) l l).sum = 0 := by
  induction l with
  | nil => rfl
  | cons a l ih => simpa using ih

set_option maxHeartbeats 1000000 in
set_option maxRecDepth 8000 in
/-- C1: for the ASK simulator with sampling frequency 1000, carrier frequency
10, bit count 10 and noise level 0, demodulating the modulation of any 10-bit
message of zeros and ones by the generated carrier wave (with an all-zero noise draw
added) returns the message exactly, and the corresponding bit error rate is
0. -/
theorem ask_noise_free_round_trip (message : List ℕ)
    (hlen : message.length = 10) (hbits : ∀ b ∈ message, b = 0 ∨ b = 1) :
    (askC1.modulation (message.map (Nat.cast)) askC1.generateCarryWave).bind
        (fun s => askC1.demodulation (addNoise s (List.replicate 1000 0)))
      = .ok message ∧ askC1.calculateBER message message = 0 := by
  have hcont_len : (npRepeat askC1.samp_per_bit
      (message.map (Nat.cast : ℕ → ℝ))).length = 1000 := by
    rw [length_npRepeat, askC1_samp_per_bit]; simp [hlen]
  constructor
  · have hmod : askC1.modulation (message.map Nat.cast) askC1.generateCarryWave
        = .ok (sigC1 message) := by
      rw [ASKState.modulation, npMul,
        if_pos (by rw [askC1_carry_length, hcont_len]), sigC1]
    rw [hmod]
    have hbind : (Except.ok (sigC1 message) : Except String (List ℝ)).bind
        (fun s => askC1.demodulation (addNoise s (List.replicate 1000 0)))
        = askC1.demodulation (addNoise (sigC1 message) (List.replicate 1000 0)) := rfl
    rw [hbind]
    have hslen := sigC1_length message hlen
    rw [show (List.replicate 1000 (0 : ℝ)) = List.replicate (sigC1 message).length 0
      by rw [hslen], addNoise_replicate_zero,
      demodulation_ok_eq askC1 (sigC1 message) (by rw [hslen]; exact le_rfl)
        (by norm_num [askC1]) (by norm_num [askC1])]
    congr 1
    apply List.ext_getElem
    · simp [askC1, hlen]
    intro k hk1 hk2
    have hk10 : k < 10 := by simpa [askC1] using hk1
    rw [List.getElem_map, List.getElem_range]
    rw [show askC1.sampling_frec = 10 * 100 by norm_num [askC1], askC1_samp_per_bit,
      map_range_segment _ 10 100 k hk10]
    have hMk : message[k] = message.getD k 0 := (List.getD_eq_getElem message 0 hk2).symm
    have hb : message.getD k 0 = 0 ∨ message.getD k 0 = 1 := by
      rw [← hMk]; exact hbits _ (List.getElem_mem hk2)
    rcases hb with b0 | b1
    · -- the k-th bit is 0: the whole segment of the signal is zero
      have hz : ∀ x ∈ (List.range' (k * 100) 100).map
          (fun i => chipOf ((sigC1 message).getD i 0)), x = 0 := by
        intro x hx
        rw [List.mem_map] at hx
        obtain ⟨i, hi, rfl⟩ := hx
        rw [List.mem_range'_1] at hi
        have hi1000 : i < 1000 := by omega
        rw [sigC1_getD message hlen i hi1000,
          show i / 100 = k from Nat.div_eq_of_lt_le (by omega) (by omega)]
        rw [b0]
        norm_num [chipOf]
      rw [List.sum_eq_zero hz]
      rw [if_neg (by norm_num)]
      rw [hMk, b0]
    · -- the k-th bit is 1: at least 51 chips fire, a strict majority
      have hptwise : ∀ i ∈ List.range' (k * 100) 100,
          (if goodIdx i then (1 : ℕ) else 0) ≤ chipOf ((sigC1 message).getD i 0) := by
        intro i hi
        rw [List.mem_range'_1] at hi
        by_cases hg : goodIdx i
        · rw [if_pos hg]
          have hi1000 : i < 1000 := by omega
          rw [sigC1_getD message hlen i hi1000,
            show i / 100 = k from Nat.div_eq_of_lt_le (by omega) (by omega)]
          rw [b1]
          have hth := chip_threshold_of_good i hg
          simp [chipOf, hth]
        · rw [if_neg hg]
          exact Nat.zero_le _
      have hle := List.sum_le_sum hptwise
      rw [sum_map_ite_eq_countP] at hle
      have hcnt := countGood k hk10
      have hge : 51 ≤ ((List.range' (k * 100) 100).map
          (fun i => chipOf ((sigC1 message).getD i 0))).sum := le_trans hcnt hle
      have hC : (((100 : ℕ) : ℝ) / 2) <
          ((((List.range' (k * 100) 100).map
            (fun i => chipOf ((sigC1 message).getD i 0))).sum : ℕ) : ℝ) := by
        have h50 : (50 : ℝ) < ((((List.range' (k * 100) 100).map
            (fun i => chipOf ((sigC1 message).getD i 0))).sum : ℕ) : ℝ) := by
          exact_mod_cast Nat.lt_of_lt_of_le (by norm_num : (50 : ℕ) < 51) hge
        calc (((100 : ℕ) : ℝ) / 2) = 50 := by norm_num
          _ < _ := h50
      rw [if_pos hC, hMk, b1]
  · rw [ASKState.calculateBER, zipWith_ne_self_sum]
    simp


/-- C1 witness at the concrete message `[1,0,1,1,0,1,0,0,1,1]`. -/
theorem ask_noise_free_round_trip_witness :
    (([1, 0, 1, 1, 0, 1, 0, 0, 1, 1] : List ℕ).length = 10 ∧
      ∀ b ∈ ([1, 0, 1, 1, 0, 1, 0, 0, 1, 1] : List ℕ), b = 0 ∨ b = 1) ∧
    ((askC1.modulation (([1, 0, 1, 1, 0, 1, 0, 0, 1, 1] : List ℕ).map (Nat.cast))
          askC1.generateCarryWave).bind
        (fun s => askC1.demodulation (addNoise s (List.replicate 1000 0)))
      = .ok [1, 0, 1, 1, 0, 1, 0, 0, 1, 1] ∧
      askC1.calculateBER [1, 0, 1, 1, 0, 1, 0, 0, 1, 1] [1, 0, 1, 1, 0, 1, 0, 0, 1, 1] = 0) :=
  ⟨⟨by decide, by decide⟩, ask_noise_free_round_trip _ (by decide) (by decide)⟩

/-! ### Claim C2: the decision thresholds of the demodulator -/

theorem getD_replicate_lt {α : Type _} (n : ℕ) (c : α) (i : ℕ) (d : α) (h : i < n) :
    (List.replicate n c).getD i d = c := by
  rw [List.getD_eq_getElem _ _ (by simpa using h), List.getElem_replicate]

/-- For a constant signal of the C1 configuration, every recovered bit is the
same and is decided by comparing `100 · chipOf c` against `50`. -/
theorem demodulation_replicate (c : ℝ) :
    askC1.demodulation (List.replicate 1000 c)
      = .ok (List.replicate 10
          (if (((100 : ℕ) : ℝ) / 2) < (((100 * chipOf c : ℕ)) : ℝ) then 1 else 0)) := by
  rw [demodulation_ok_eq askC1 (List.replicate 1000 c)
    (by rw [List.length_replicate]; norm_num [askC1])
    (by norm_num [askC1]) (by norm_num [askC1])]
  refine congrArg Except.ok ?_
  rw [show askC1.sampling_frec = 10 * 100 by norm_num [askC1], askC1_samp_per_bit]
  apply List.eq_replicate_iff.mpr
  refine ⟨by rw [List.length_map, List.length_range]; norm_num [askC1], ?_⟩
  intro b hb
  rw [List.mem_map] at hb
  obtain ⟨k, hk, rfl⟩ := hb
  rw [List.mem_range] at hk
  have hk10 : k < 10 := by simpa [askC1] using hk
  rw [map_range_segment _ 10 100 k hk10]
  have hseg : (List.range' (k * 100) 100).map
      (fun i => chipOf ((List.replicate 1000 c).getD i 0))
      = List.replicate 100 (chipOf c) := by
    apply List.eq_replicate_iff.mpr
    refine ⟨by rw [List.length_map, List.length_range'], ?_⟩
    intro x hx
    rw [List.mem_map] at hx
    obtain ⟨i, hi, rfl⟩ := hx
    rw [List.mem_range'_1] at hi
    rw [getD_replicate_lt 1000 c i 0 (by omega)]
  rw [hseg, List.sum_replicate, smul_eq_mul]

set_option maxHeartbeats 400000 in
/-- C2: a sample of absolute value exactly 0.4 yields chip value 0 and one of
absolute value strictly above 0.4 yields chip value 1 (so the constant-0.4
signal demodulates to all zeros and the constant-0.4001 signal to all ones in
the C1 configuration); and each decided bit is 1 exactly when the sum of its
segment's chip values strictly exceeds `samp_per_bit / 2`. -/
theorem ask_threshold_boundary :
    (∀ x : ℝ, |x| = 0.4 → chipOf x = 0) ∧
    (∀ x : ℝ, 0.4 < |x| → chipOf x = 1) ∧
    askC1.demodulation (List.replicate 1000 0.4) = .ok (List.replicate 10 0) ∧
    askC1.demodulation (List.replicate 1000 0.4001) = .ok (List.replicate 10 1) ∧
    (∀ (a : ASKState) (signal : List ℝ) (recv : List ℕ),
      a.demodulation signal = .ok recv → ∀ k, k < a.bits_num →
        (recv.getD k 0 = 1 ↔ (a.samp_per_bit : ℝ) / 2 <
          (((((List.range a.sampling_frec).map fun i =>
              chipOf (signal.getD i 0)).drop (k * a.samp_per_bit)).take
                a.samp_per_bit).sum : ℝ))) := by
  refine ⟨?_, ?_, ?_, ?_, ?_⟩
  · intro x h
    rw [chipOf, h, if_neg (lt_irrefl _)]
  · intro x h
    rw [chipOf, if_pos h]
  · rw [demodulation_replicate]
    have h0 : chipOf (0.4 : ℝ) = 0 := by
      rw [chipOf, if_neg (by rw [abs_of_nonneg]; norm_num; norm_num)]
    rw [h0]
    norm_num
  · rw [demodulation_replicate]
    have h1 : chipOf (0.4001 : ℝ) = 1 := by
      rw [chipOf, if_pos (by rw [abs_of_nonneg]; norm_num; norm_num)]
    rw [h1]
    norm_num
  · intro a signal recv hok k hk
    by_cases h1 : a.sampling_frec ≤ signal.length
    · by_cases h2 : a.bits_num = 0
      · rw [ASKState.demodulation, if_pos h1, if_pos h2] at hok
        exact absurd hok (by simp)
      · by_cases h3 : a.sampling_frec % a.bits_num = 0
        · rw [demodulation_ok_eq a signal h1 h2 h3] at hok
          have hrecv := (Except.ok.injEq _ _).mp hok
          subst hrecv
          rw [List.getD_eq_getElem _ _ (by simpa using hk), List.getElem_map,
            List.getElem_range]
          by_cases hc : (a.samp_per_bit : ℝ) / 2 <
              (((((List.range a.sampling_frec).map fun i =>
                chipOf (signal.getD i 0)).drop (k * a.samp_per_bit)).take
                  a.samp_per_bit).sum : ℝ)
          · simp [hc]
          · simp [hc]
        · rw [ASKState.demodulation, if_pos h1, if_neg h2, if_neg h3] at hok
          exact absurd hok (by simp)
    · rw [ASKState.demodulation, if_neg h1] at hok
      exact absurd hok (by simp)

/-- C2 witness: the chip rules at `-0.4` and `0.5`, and the majority rule
instantiated on the all-`0.4001` signal at bit 0. -/
theorem ask_threshold_boundary_witness :
    chipOf (-0.4) = 0 ∧ chipOf 0.5 = 1 ∧
    ((List.replicate 10 (1 : ℕ)).getD 0 0 = 1 ↔ (askC1.samp_per_bit : ℝ) / 2 <
      (((((List.range askC1.sampling_frec).map fun i =>
          chipOf ((List.replicate 1000 (0.4001 : ℝ)).getD i 0)).drop
            (0 * askC1.samp_per_bit)).take askC1.samp_per_bit).sum : ℝ)) :=
  ⟨ask_threshold_boundary.1 (-0.4) (by rw [abs_neg, abs_of_nonneg] <;> norm_num),
   ask_threshold_boundary.2.1 0.5 (by rw [abs_of_nonneg] <;> norm_num),
   ask_threshold_boundary.2.2.2.2 askC1 _ _ ask_threshold_boundary.2.2.2.1 0
     (by norm_num [askC1])⟩

/-! ### Claim C9: demodulation only inspects absolute values -/

/-- C9: demodulation is invariant under negating the input signal, because
only the absolute value of each sample is inspected. -/
theorem demodulation_neg_invariant (a : ASKState) (signal : List ℝ) :
    a.demodulation (signal.map (fun x => -x)) = a.demodulation signal := by
  rw [ASKState.demodulation, ASKState.demodulation, List.length_map]
  by_cases h1 : a.sampling_frec ≤ signal.length
  · rw [if_pos h1, if_pos h1]
    by_cases h2 : a.bits_num = 0
    · rw [if_pos h2, if_pos h2]
    · rw [if_neg h2, if_neg h2]
      by_cases h3 : a.sampling_frec % a.bits_num = 0
      · rw [if_pos h3, if_pos h3]
        have hchips : ((List.range a.sampling_frec).map fun i =>
            chipOf ((signal.map (fun x => -x)).getD i 0))
            = (List.range a.sampling_frec).map fun i => chipOf (signal.getD i 0) := by
          apply List.map_congr_left
          intro i hi
          rw [List.mem_range] at hi
          have hilen : i < signal.length := lt_of_lt_of_le hi h1
          rw [List.getD_eq_getElem _ _ (by simpa using hilen), List.getElem_map,
            ← List.getD_eq_getElem _ _ hilen, chipOf, chipOf, abs_neg]
        rw [hchips]
      · rw [if_neg h3, if_neg h3]
  · rw [if_neg h1, if_neg h1]


/-! ### Claim C3: the bit error rate formula and its bounds -/

/-- The sum of mismatch indicators is the number of differing positions. -/
theorem zipWith_ne_sum_eq (orig recv : List ℕ) :
    (List.zipWith (fun x y => if x ≠ y then (1 : ℕ) else 0) orig recv).sum
      = (orig.zip recv).countP (fun p => decide (p.1 ≠ p.2)) := by
  induction orig generalizing recv with
  | nil => simp
  | cons a l ih =>
      cases recv with
      | nil => simp
      | cons b m =>
          rw [List.zipWith_cons_cons, List.sum_cons, List.zip_cons_cons,
            List.countP_cons, ih m]
          by_cases h : a = b <;> simp [h] <;> omega

/-- A simulator state with bit count 5 for the concrete BER example. -/
def askC3 : ASKState := ⟨1000, 10, 5, 0⟩

/-- C3: for equal-length sequences of `bit_count` bits with positive
`bit_count`, `calculateBER` is exactly the number of differing positions
divided by `bit_count`, a value in `[0, 1]`; and on `[1,0,1,1,0]` versus
`[1,1,1,0,0]` with bit count 5 it is `2/5 = 0.4`. -/
theorem calculateBER_diff_count :
    (∀ (a : ASKState) (orig recv : List ℕ),
        orig.length = a.bits_num → recv.length = a.bits_num → 0 < a.bits_num →
        a.calculateBER orig recv
            = (((orig.zip recv).countP (fun p => decide (p.1 ≠ p.2)) : ℕ) : ℝ)
                / (a.bits_num : ℝ)
          ∧ 0 ≤ a.calculateBER orig recv ∧ a.calculateBER orig recv ≤ 1) ∧
    askC3.calculateBER [1, 0, 1, 1, 0] [1, 1, 1, 0, 0] = 2 / 5 := by
  constructor
  · intro a orig recv h1 h2 h3
    have he : a.calculateBER orig recv
        = (((orig.zip recv).countP (fun p => decide (p.1 ≠ p.2)) : ℕ) : ℝ)
            / (a.bits_num : ℝ) := by
      rw [ASKState.calculateBER, zipWith_ne_sum_eq]
    refine ⟨he, ?_, ?_⟩
    · rw [he]; positivity
    · rw [he]
      apply div_le_one_of_le₀
      · have hcnt : (orig.zip recv).countP (fun p => decide (p.1 ≠ p.2))
            ≤ a.bits_num := by
          calc (orig.zip recv).countP (fun p => decide (p.1 ≠ p.2))
              ≤ (orig.zip recv).length := List.countP_le_length _
            _ = a.bits_num := by rw [List.length_zip, h1, h2, Nat.min_self]
        exact_mod_cast hcnt
      · positivity
  · rw [ASKState.calculateBER]
    norm_num [askC3]

/-- C3 witness at the concrete `[1,0,1,1,0]` / `[1,1,1,0,0]` pair. -/
theorem calculateBER_diff_count_witness :
    (([1, 0, 1, 1, 0] : List ℕ).length = askC3.bits_num ∧
      ([1, 1, 1, 0, 0] : List ℕ).length = askC3.bits_num ∧ 0 < askC3.bits_num) ∧
    (askC3.calculateBER [1, 0, 1, 1, 0] [1, 1, 1, 0, 0]
        = (((([1, 0, 1, 1, 0] : List ℕ).zip ([1, 1, 1, 0, 0] : List ℕ)).countP
            (fun p => decide (p.1 ≠ p.2)) : ℕ) : ℝ) / (askC3.bits_num : ℝ)
      ∧ 0 ≤ askC3.calculateBER [1, 0, 1, 1, 0] [1, 1, 1, 0, 0]
      ∧ askC3.calculateBER [1, 0, 1, 1, 0] [1, 1, 1, 0, 0] ≤ 1) :=
  ⟨⟨by decide, by decide, by decide⟩,
    calculateBER_diff_count.1 askC3 [1, 0, 1, 1, 0] [1, 1, 1, 0, 0]
      (by decide) (by decide) (by decide)⟩

/-! ### Claim C4: the sweep schedule -/

/-- C4: `simulate` performs exactly 12 runs, labelled 0 through 11 in
increasing order; the run with label `n` is performed with noise level
`(1/√(2·10^(n/10)))·2`, and for `n = 0` this equals `√2`. -/
theorem simulate_schedule (a : ASKState) :
    (a.simulate).length = 12 ∧
    (∀ n, n < 12 → (a.simulate).getD n (a, 0)
        = ({ a with noise := 1 / Real.sqrt (2 * (10 : ℝ) ^ ((n : ℝ) / 10)) * 2 }, n)) ∧
    ((a.simulate).getD 0 (a, 0)).1.noise = Real.sqrt 2 := by
  have hlen : (a.simulate).length = 12 := by
    rw [ASKState.simulate, List.length_map, List.length_range]
  have hget : ∀ n, n < 12 → (a.simulate).getD n (a, 0)
      = ({ a with noise := noiseFor n }, n) := by
    intro n hn
    rw [ASKState.simulate,
      List.getD_eq_getElem _ _ (by rw [List.length_map, List.length_range]; exact hn),
      List.getElem_map, List.getElem_range]
  have hzero : noiseFor 0 = Real.sqrt 2 := by
    have hs : Real.sqrt 2 * Real.sqrt 2 = 2 := Real.mul_self_sqrt (by norm_num)
    have hpos : (0 : ℝ) < Real.sqrt 2 := Real.sqrt_pos.mpr (by norm_num)
    rw [noiseFor]
    norm_num
    field_simp
  exact ⟨hlen, fun n hn => by rw [hget n hn, noiseFor],
    by rw [hget 0 (by norm_num), hzero]⟩

/-- C4 witness: the schedule of the `(1000, 10, 10)` simulator, spot-checked
at sweep index 3. -/
theorem simulate_schedule_witness :
    (askC1.simulate).length = 12 ∧
    (3 < 12 ∧ (askC1.simulate).getD 3 (askC1, 0)
        = ({ askC1 with noise := 1 / Real.sqrt (2 * (10 : ℝ) ^ (((3 : ℕ) : ℝ) / 10)) * 2 }, 3)) ∧
    ((askC1.simulate).getD 0 (askC1, 0)).1.noise = Real.sqrt 2 :=
  ⟨(simulate_schedule askC1).1,
    ⟨by norm_num, (simulate_schedule askC1).2.1 3 (by norm_num)⟩,
    (simulate_schedule askC1).2.2⟩


/-! ### Claim C5: one run appends exactly one result row -/

/-- C5: whenever `one_run` completes, the resulting file is the input file
with exactly one row appended, whose fields are, in order: the literal
string ASK, the sampling frequency, the carrier frequency, the bit count,
the noise level rounded to one decimal place, the bit error rate, and the
sweep label; every pre-existing row is untouched. -/
theorem one_run_appends_one_row (a : ASKState) (message : List ℕ) (noiseF : ℕ → ℝ)
    (file : List (List Field)) (EbNodB : ℕ) (file' : List (List Field))
    (h : a.one_run message noiseF file EbNodB = .ok file') :
    ∃ ber : ℝ, file' = file ++
      [[Field.str "ASK", Field.int a.sampling_frec, Field.int a.carry_frec,
        Field.int a.bits_num, Field.real (npRound1 a.noise), Field.real ber,
        Field.int EbNodB]] := by
  rw [ASKState.one_run] at h
  split at h
  · exact absurd h (by simp)
  · split at h
    · exact absurd h (by simp)
    · have hf := (Except.ok.injEq _ _).mp h
      exact ⟨_, by rw [← hf]; rfl⟩

/-- A minimal configuration on which the full pipeline evaluates in closed
form: one sample, one bit. -/
def ask1 : ASKState := ⟨1, 1, 1, 0⟩

theorem rangeOneEq : List.range 1 = [0] := rfl

/-- C5 witness: one full pipeline run of the one-sample configuration,
appending its single row to the empty file. -/
theorem one_run_appends_one_row_witness :
    ask1.one_run [1] (fun _ => 0) [] 0
        = .ok (ask1.save_to_csv [] (ask1.calculateBER [1] [0]) 0) ∧
    ∃ ber : ℝ, ask1.save_to_csv [] (ask1.calculateBER [1] [0]) 0 = [] ++
      [[Field.str "ASK", Field.int ask1.sampling_frec, Field.int ask1.carry_frec,
        Field.int ask1.bits_num, Field.real (npRound1 ask1.noise), Field.real ber,
        Field.int 0]] := by
  have h : ask1.one_run [1] (fun _ => 0) [] 0
      = .ok (ask1.save_to_csv [] (ask1.calculateBER [1] [0]) 0) := by
    have hcarry : ask1.generateCarryWave = [0] := by
      rw [ASKState.generateCarryWave, show ask1.sampling_frec = 1 from rfl, rangeOneEq]
      norm_num [ASKState.time, ask1]
    have hmod : ask1.modulation (([1] : List ℕ).map (Nat.cast))
        ask1.generateCarryWave = .ok [0] := by
      rw [ASKState.modulation, hcarry]
      rw [show npRepeat ask1.samp_per_bit (([1] : List ℕ).map (Nat.cast : ℕ → ℝ))
        = [((1 : ℕ) : ℝ)] from rfl]
      rw [npMul]
      norm_num
    have hdem : ask1.demodulation (addNoise [0]
        ((List.range ([0] : List ℝ).length).map (fun _ => (0 : ℝ)))) = .ok [0] := by
      rw [show ([0] : List ℝ).length = 1 from rfl, rangeOneEq,
        show (([0] : List ℕ).map (fun _ => (0 : ℝ))) = [(0 : ℝ)] from rfl]
      rw [show addNoise [0] [(0 : ℝ)] = [(0 : ℝ) + 0] from rfl]
      rw [demodulation_ok_eq ask1 _ (by exact le_rfl) (by decide) (by decide)]
      rw [show ask1.sampling_frec = 1 from rfl, rangeOneEq,
        show ask1.samp_per_bit = 1 from rfl, show ask1.bits_num = 1 from rfl,
        rangeOneEq]
      norm_num [chipOf]
    rw [ASKState.one_run, hmod]
    simp only []
    rw [hdem]
  exact ⟨h, one_run_appends_one_row ask1 [1] (fun _ => 0) [] 0 _ h⟩

/-! ### Claim C6: modulation with a non-divisible configuration -/

/-- A configuration whose bit count 3 does not divide its sampling
frequency 10. -/
def askC6 : ASKState := ⟨10, 1, 3, 0⟩

/-- C6 counterexample: with sampling frequency 10 and bit count 3, the
expanded message has length `samp_per_bit × bit_count = 9` while the carrier
has length 10, and NumPy raises a broadcast `ValueError` instead of
multiplying up to the shorter length; no truncated signal is produced. -/
theorem modulation_nondivisible_cex :
    askC6.modulation (([1, 1, 1] : List ℕ).map (Nat.cast)) askC6.generateCarryWave
      = .error "ValueError: operands could not be broadcast together" := by
  have hcw : askC6.generateCarryWave.length = 10 := by
    rw [ASKState.generateCarryWave, List.length_map, List.length_range]
    rfl
  have hct : (npRepeat askC6.samp_per_bit
      (([1, 1, 1] : List ℕ).map (Nat.cast : ℕ → ℝ))).length = 9 := by
    rw [length_npRepeat]
    rfl
  rw [ASKState.modulation, npMul, if_neg (by rw [hcw, hct]; norm_num),
    if_neg (by rw [hcw]; norm_num), if_neg (by rw [hct]; norm_num)]

/-- C6 (amended): when the positive bit count is at most the sampling
frequency but does not divide it, modulating a `bit_count`-element message
against the `sampling_frequency`-element carrier raises the broadcast error
(the expanded message is strictly shorter than the carrier and neither side
is a scalar). -/
theorem modulation_nondivisible_error (a : ASKState) (message carry_wave : List ℝ)
    (hmsg : message.length = a.bits_num) (hcw : carry_wave.length = a.sampling_frec)
    (hpos : 0 < a.bits_num) (hle : a.bits_num ≤ a.sampling_frec)
    (hnd : ¬ a.bits_num ∣ a.sampling_frec) :
    a.modulation message carry_wave
      = .error "ValueError: operands could not be broadcast together" := by
  have hbne1 : a.bits_num ≠ 1 := fun h => hnd (h ▸ one_dvd _)
  have hsfne1 : a.sampling_frec ≠ 1 := by
    intro h
    have : a.bits_num = 1 := by omega
    exact hbne1 this
  have hlt : a.samp_per_bit * a.bits_num < a.sampling_frec := by
    rw [ASKState.samp_per_bit]
    refine Nat.lt_of_le_of_ne (Nat.div_mul_le_self _ _) (fun he => hnd ?_)
    exact Dvd.intro_left _ he
  have hcont : (npRepeat a.samp_per_bit message).length
      = a.samp_per_bit * a.bits_num := by
    rw [length_npRepeat, hmsg]
  rw [ASKState.modulation, npMul,
    if_neg (by rw [hcw, hcont]; omega),
    if_neg (by rw [hcw]; exact hsfne1),
    if_neg (by
      rw [hcont]
      intro hone
      exact hbne1 (Nat.dvd_one.mp (Dvd.intro_left _ hone)))]

/-- C6 amended-claim witness at the `(10, 3)` configuration with the all-zero
message. -/
theorem modulation_nondivisible_error_witness :
    (([0, 0, 0] : List ℝ).length = askC6.bits_num ∧
      askC6.generateCarryWave.length = askC6.sampling_frec ∧
      0 < askC6.bits_num ∧ askC6.bits_num ≤ askC6.sampling_frec ∧
      ¬ askC6.bits_num ∣ askC6.sampling_frec) ∧
    askC6.modulation [0, 0, 0] askC6.generateCarryWave
      = .error "ValueError: operands could not be broadcast together" := by
  have hcw : askC6.generateCarryWave.length = askC6.sampling_frec := by
    rw [ASKState.generateCarryWave, List.length_map, List.length_range]
  refine ⟨⟨by decide, hcw, by decide, by decide, by decide⟩, ?_⟩
  exact modulation_nondivisible_error askC6 [0, 0, 0] askC6.generateCarryWave
    (by decide) hcw (by decide) (by decide) (by decide)

/-! ### Claim C7: demodulation with a non-divisible configuration -/

/-- C7 counterexample: with sampling frequency 10 and bit count 3,
demodulating a full-length signal raises the `np.split` equal-division
`ValueError`; the stage does not complete with truncated segments. -/
theorem demodulation_nondivisible_cex :
    askC6.demodulation (List.replicate 10 0)
      = .error "ValueError: array split does not result in an equal division" := by
  rw [ASKState.demodulation, if_pos (by decide), if_neg (by decide),
    if_neg (by decide)]

/-- C7 (amended): for every configuration whose positive bit count does not
evenly divide the sampling frequency, demodulation of any sufficiently long
signal raises the `np.split` equal-division error instead of silently
truncating; the pipeline aborts rather than completing. -/
theorem demodulation_nondivisible_error (a : ASKState) (signal : List ℝ)
    (hlen : a.sampling_frec ≤ signal.length) (hz : a.bits_num ≠ 0)
    (hnd : a.sampling_frec % a.bits_num ≠ 0) :
    a.demodulation signal
      = .error "ValueError: array split does not result in an equal division" := by
  rw [ASKState.demodulation, if_pos hlen, if_neg hz, if_neg hnd]

/-- C7 amended-claim witness on a signal of length 12. -/
theorem demodulation_nondivisible_error_witness :
    (askC6.sampling_frec ≤ (List.replicate 12 (0 : ℝ)).length ∧
      askC6.bits_num ≠ 0 ∧ askC6.sampling_frec % askC6.bits_num ≠ 0) ∧
    askC6.demodulation (List.replicate 12 0)
      = .error "ValueError: array split does not result in an equal division" := by
  have h1 : askC6.sampling_frec ≤ (List.replicate 12 (0 : ℝ)).length := by
    decide
  exact ⟨⟨h1, by decide, by decide⟩,
    demodulation_nondivisible_error askC6 _ h1 (by decide) (by decide)⟩

/-! ### Claims C8 and C10: zero bit count -/

/-- C8 counterexample: with bit count 0 the constructor itself raises
`ZeroDivisionError` while computing `samp_per_bit`, so execution never
reaches `calculateBER`; the failure is not located in the error-rate
computation. -/
theorem init_zero_bits_cex :
    ASK.init 1000 10 0 0 = .error "ZeroDivisionError: division by zero" := by
  rw [ASK.init, if_pos rfl]

/-- C8 (amended): with a bit count of zero, the division-by-zero arithmetic
fault occurs already in the constructor, at the `samp_per_bit` computation,
for every choice of the other parameters; the error-rate computation is
never reached. -/
theorem init_zero_bits_raises (sampling_frec carry_frec : ℕ) (noise : ℝ) :
    ASK.init sampling_frec carry_frec 0 noise
      = .error "ZeroDivisionError: division by zero" := by
  rw [ASK.init, if_pos rfl]

/-- C10: constructing the simulator with bit count 0 fails (with the
division-by-zero error of the `samp_per_bit` line), so no simulator state
with a zero bit count is ever produced and no pipeline operation can be
reached with that configuration. -/
theorem init_zero_bits_never_ok (sampling_frec carry_frec : ℕ) (noise : ℝ) :
    (ASK.init sampling_frec carry_frec 0 noise).isOk = false := by
  rw [ASK.init, if_pos rfl]
  rfl

end PSK
